import Mathlib

/-
Verification of the job-polling and state-reconciliation loop of the sd3-ui
client (src/app/page.tsx) together with its submission flow, persistence
path and download-filename helper. The component state of the Home
component is embedded as a pure record, the React state updaters as pure
state transformers, and one firing of the polling interval as a function
of the list of responses the backend delivers to the queries issued in
that round.
-/

namespace SD3UI

/-- Job status, from the union type of the GeneratedImage interface in
src/app/page.tsx. The source spells the pending state "loading". -/
inductive Status where
  | loading
  | complete
  | error
deriving DecidableEq, Repr

/-- Job record, from the GeneratedImage interface in src/app/page.tsx.
Optional TypeScript fields become Option. -/
structure GeneratedImage where
  id : String
  prompt : String
  status : Status
  url : Option String
  error : Option String
  startTime : Nat
  completionTime : Option Nat
deriving DecidableEq, Repr

/-- The two pieces of component state the polling engine touches:
images is the Job Store, pendingJobs the working-set list. -/
structure HomeState where
  images : List GeneratedImage
  pendingJobs : List String
deriving DecidableEq, Repr

/-- Initial state: empty store, empty working set (the useState defaults
when nothing is restored from storage). -/
def initState : HomeState := { images := [], pendingJobs := [] }

/-- The list of ids present in a store, in store order. -/
def idsOf (images : List GeneratedImage) : List String :=
  images.map (fun img => img.id)

/-- Guard from the polling loop: a jobId is skipped when it is falsy (the
empty string, for a string-typed value) or the sentinel "undefined". -/
def malformedId (j : String) : Bool :=
  j = "" || j = "undefined"

/-- Outcome of one status query, as seen by the polling loop. transportFail
covers both a rejected fetch and a non-ok response (the source throws on
non-ok and lands in the same catch). pending covers any payload whose
status field is neither SUCCESS nor ERROR. -/
inductive PollResponse where
  | transportFail
  | pending
  | success (url : String)
  | error (message : String)
deriving DecidableEq, Repr

/-- The setImages updater run when a SUCCESS payload arrives for jobId
(src/app/page.tsx lines 76-89): map over the store, rewriting every record
whose id matches. -/
def reconcileSuccess (images : List GeneratedImage) (jobId url : String)
    (now : Nat) : List GeneratedImage :=
  images.map (fun img =>
    if img.id = jobId then
      { img with status := Status.complete, url := some url,
                 completionTime := some now }
    else img)

/-- The setImages updater run when an ERROR payload arrives for jobId
(src/app/page.tsx lines 90-103). -/
def reconcileError (images : List GeneratedImage) (jobId message : String)
    (now : Nat) : List GeneratedImage :=
  images.map (fun img =>
    if img.id = jobId then
      { img with status := Status.error, error := some message,
                 completionTime := some now }
    else img)

/-- One pass of the for-loop over pendingJobs inside the interval callback
(src/app/page.tsx lines 59-108). resps is the stream of responses the
backend delivers, one consumed per query actually issued; a malformed id
issues no query and consumes nothing, and an exhausted stream reads as
transport failures. Returns the store after the loop, the completedJobs
list, and the list of ids actually queried. -/
def pollJobs (now : Nat) (jobs : List String) (resps : List PollResponse)
    (images : List GeneratedImage) :
    List GeneratedImage × List String × List String :=
  match jobs with
  | [] => (images, [], [])
  | j :: rest =>
    if malformedId j then
      let r := pollJobs now rest resps images
      (r.1, j :: r.2.1, r.2.2)
    else
      match resps with
      | [] =>
        let r := pollJobs now rest [] images
        (r.1, r.2.1, j :: r.2.2)
      | resp :: more =>
        match resp with
        | PollResponse.success url =>
          let r := pollJobs now rest more (reconcileSuccess images j url now)
          (r.1, j :: r.2.1, j :: r.2.2)
        | PollResponse.error msg =>
          let r := pollJobs now rest more (reconcileError images j msg now)
          (r.1, j :: r.2.1, j :: r.2.2)
        | PollResponse.pending =>
          let r := pollJobs now rest more images
          (r.1, r.2.1, j :: r.2.2)
        | PollResponse.transportFail =>
          let r := pollJobs now rest more images
          (r.1, r.2.1, j :: r.2.2)

/-- One firing of the 1-second interval (src/app/page.tsx lines 58-115):
run the loop, then, when completedJobs is non-empty, filter every
completed id out of pendingJobs. -/
def pollRound (now : Nat) (resps : List PollResponse) (s : HomeState) :
    HomeState :=
  let r := pollJobs now s.pendingJobs resps s.images
  { images := r.1,
    pendingJobs :=
      if r.2.1.isEmpty then s.pendingJobs
      else s.pendingJobs.filter (fun j => !(r.2.1.contains j)) }

/-- The polling effect (src/app/page.tsx lines 55-118) returns without
scheduling an interval exactly when pendingJobs is empty; otherwise it
schedules the recurring timer. -/
def timerScheduled (s : HomeState) : Bool :=
  s.pendingJobs.length != 0

/-- The working set as the spec defines it in its data-model section:
derived from the store as the ids of the records still pending. -/
def effectiveWorkingSet (s : HomeState) : List String :=
  idsOf (s.images.filter (fun img => img.status == Status.loading))

/-- The deleteImage handler (src/app/page.tsx lines 158-160): filter the
record out of the store. It does not touch pendingJobs. -/
def deleteImage (id : String) (s : HomeState) : HomeState :=
  { s with images := s.images.filter (fun img => img.id != id) }

/-- The record generateImage appends on a successful submission
(src/app/page.tsx lines 142-147). -/
def mkImage (id prompt : String) (now : Nat) : GeneratedImage :=
  { id := id, prompt := prompt, status := Status.loading, url := none,
    error := none, startTime := now, completionTime := none }

/-- State change of a successful submission (src/app/page.tsx lines
149-150): prepend the new record (newest first) and append the id to
pendingJobs. -/
def submitSuccess (id prompt : String) (now : Nat) (s : HomeState) :
    HomeState :=
  { images := mkImage id prompt now :: s.images,
    pendingJobs := s.pendingJobs ++ [id] }

/-- Gateway outcome of a submission attempt as generateImage observes it:
a rejected fetch, a non-ok response (the source throws and both land in
the catch), or a parsed JSON body whose job-id field carries the given
optional string (none when the field is absent). -/
inductive SubmitOutcome where
  | transportFail
  | httpNotOk
  | response (idField : Option String)
deriving DecidableEq, Repr

/-- Observable result of one generateImage call: the resulting component
state, whether the failure alert was shown, whether the gateway was
contacted, and the prompt input afterwards. -/
structure SubmitEffect where
  state : HomeState
  alerted : Bool
  contactedGateway : Bool
  promptAfter : String
deriving DecidableEq, Repr

/-- The prompt.trim() call: drop leading and trailing whitespace. -/
def jsTrim (s : String) : String :=
  String.mk
    (((s.toList.dropWhile Char.isWhitespace).reverse.dropWhile
        Char.isWhitespace).reverse)

/-- The generateImage handler (src/app/page.tsx lines 120-156). A prompt
that trims to empty returns before any request. A falsy job-id field
(absent, or the empty string) throws and lands in the catch, which alerts;
the catch performs no state mutation. Only the success path mutates the
store and the working set. -/
def generateImage (prompt : String) (outcome : SubmitOutcome) (now : Nat)
    (s : HomeState) : SubmitEffect :=
  if jsTrim prompt = "" then
    { state := s, alerted := false, contactedGateway := false,
      promptAfter := prompt }
  else
    match outcome with
    | SubmitOutcome.response (some jobId) =>
      if jobId = "" then
        { state := s, alerted := true, contactedGateway := true,
          promptAfter := prompt }
      else
        { state := submitSuccess jobId prompt now s, alerted := false,
          contactedGateway := true, promptAfter := "" }
    | SubmitOutcome.response none =>
      { state := s, alerted := true, contactedGateway := true,
        promptAfter := prompt }
    | SubmitOutcome.transportFail =>
      { state := s, alerted := true, contactedGateway := true,
        promptAfter := prompt }
    | SubmitOutcome.httpNotOk =>
      { state := s, alerted := true, contactedGateway := true,
        promptAfter := prompt }

/-- ASCII letter or digit, the character class of the regex in
downloadImage (the i flag makes it case-insensitive). -/
def isAlnumAscii (c : Char) : Bool :=
  decide (('a' ≤ c ∧ c ≤ 'z') ∨ ('A' ≤ c ∧ c ≤ 'Z') ∨ ('0' ≤ c ∧ c ≤ '9'))

/-- Filename computed by downloadImage (src/app/page.tsx line 170): slice
the first 30 characters of the prompt, replace every character outside the
class by an underscore, lower-case, append ".jpg". -/
def downloadFilename (prompt : String) : String :=
  String.mk
    (((prompt.toList.take 30).map
        (fun c => if isAlnumAscii c then c else '_')).map Char.toLower)
    ++ ".jpg"

/-- Filename as the claim under scrutiny words it: strip (remove)
non-alphanumeric characters, then truncate to 30 characters, then
lower-case, then append the fixed extension. Stated from the claim, for
comparison against downloadFilename. -/
def strippedFilename (prompt : String) : String :=
  String.mk (((prompt.toList.filter isAlnumAscii).take 30).map Char.toLower)
    ++ ".jpg"

/-- Filename as the amended claim words it: the first 30 characters of the
prompt with every character that is not an ASCII letter or digit replaced
by an underscore, lower-cased, with ".jpg" appended. -/
def amendedFilename (prompt : String) : String :=
  String.mk
    ((prompt.toList.take 30).map
      (fun c => if isAlnumAscii c then Char.toLower c else '_'))
    ++ ".jpg"

/-- Terminal record: status complete or error. -/
def Terminal (img : GeneratedImage) : Prop :=
  img.status = Status.complete ∨ img.status = Status.error

instance (img : GeneratedImage) : Decidable (Terminal img) := by
  unfold Terminal; infer_instance

/-- Store/working-set coherence: every terminal record has left the
working-set list. -/
def TerminalRetired (s : HomeState) : Prop :=
  ∀ img ∈ s.images, Terminal img → img.id ∉ s.pendingJobs

/-- States reachable from the empty initial state when every
gateway-issued id is fresh, the uniqueness assumption the spec places on
the gateway. -/
inductive ReachF : HomeState → Prop where
  | init : ReachF initState
  | submit {s : HomeState} (id prompt : String) (now : Nat) :
      ReachF s → id ∉ idsOf s.images → id ∉ s.pendingJobs →
      ReachF (submitSuccess id prompt now s)
  | delete {s : HomeState} (id : String) : ReachF s → ReachF (deleteImage id s)
  | poll {s : HomeState} (now : Nat) (resps : List PollResponse) :
      ReachF s → ReachF (pollRound now resps s)

/-- Unconstrained step relation over the three state-changing operations,
with no assumption on the ids the gateway returns. -/
inductive Step : HomeState → HomeState → Prop where
  | submit (id prompt : String) (now : Nat) (s : HomeState) :
      Step s (submitSuccess id prompt now s)
  | delete (id : String) (s : HomeState) : Step s (deleteImage id s)
  | poll (now : Nat) (resps : List PollResponse) (s : HomeState) :
      Step s (pollRound now resps s)

/-- Reachability from the empty initial state under unconstrained steps. -/
def Reachable (s : HomeState) : Prop :=
  Relation.ReflTransGen Step initState s

/-- Syntactic operations, for quantifying over interleavings. -/
inductive Op where
  | submit (id prompt : String) (now : Nat)
  | delete (id : String)
  | poll (now : Nat) (resps : List PollResponse)
deriving DecidableEq, Repr

/-- Apply one operation to the component state. -/
def applyOp (s : HomeState) (op : Op) : HomeState :=
  match op with
  | Op.submit id prompt now => submitSuccess id prompt now s
  | Op.delete id => deleteImage id s
  | Op.poll now resps => pollRound now resps s

/-- Apply a sequence of operations in order. -/
def applyOps (s : HomeState) (ops : List Op) : HomeState :=
  ops.foldl applyOp s

/-- Whether an operation is a submission that introduces the given id. -/
def Op.submitsId (op : Op) (jid : String) : Prop :=
  match op with
  | Op.submit id _ _ => id = jid
  | _ => False

instance (op : Op) (jid : String) : Decidable (op.submitsId jid) := by
  unfold Op.submitsId; cases op <;> infer_instance

/-- JSON values, the codomain of the platform JSON.parse. Numbers are
restricted to the integral fragment, which covers every number this store
ever writes (timestamps). -/
inductive Json where
  | null
  | bool (b : Bool)
  | num (n : Int)
  | str (s : String)
  | arr (elems : List Json)
  | obj (fields : List (String × Json))

/-- Drop leading JSON whitespace. -/
def skipWs (cs : List Char) : List Char :=
  cs.dropWhile (fun c => c == ' ' || c == '\n' || c == '\t' || c == '\r')

/-- Body of a JSON string literal after the opening quote; a backslash
escapes the following character. Returns the content and the remainder
after the closing quote. -/
def parseStringChars : List Char → Option (List Char × List Char)
  | [] => none
  | '"' :: rest => some ([], rest)
  | '\\' :: rest =>
    match rest with
    | [] => none
    | e :: rest2 =>
      match parseStringChars rest2 with
      | none => none
      | some (s, r) => some (e :: s, r)
  | c :: rest =>
    match parseStringChars rest with
    | none => none
    | some (s, r) => some (c :: s, r)

/-- Accumulate decimal digits. -/
def parseDigitsAux : List Char → Nat → Nat × List Char
  | [], acc => (acc, [])
  | c :: rest, acc =>
    if c.isDigit then parseDigitsAux rest (acc * 10 + (c.toNat - 48))
    else (acc, c :: rest)

/-- A non-empty run of decimal digits. -/
def parseNatLit (cs : List Char) : Option (Nat × List Char) :=
  match cs with
  | c :: rest =>
    if c.isDigit then some (parseDigitsAux rest (c.toNat - 48)) else none
  | [] => none

/-- An optionally negated integer literal. -/
def parseIntLit (cs : List Char) : Option (Int × List Char) :=
  match cs with
  | '-' :: rest =>
    match parseNatLit rest with
    | some (n, r) => some (-(n : Int), r)
    | none => none
  | _ =>
    match parseNatLit cs with
    | some (n, r) => some ((n : Int), r)
    | none => none

mutual

/-- Fuel-indexed recursive-descent parser for one JSON value. -/
def parseVal : Nat → List Char → Option (Json × List Char)
  | 0, _ => none
  | Nat.succ fuel, cs =>
    match skipWs cs with
    | 'n' :: 'u' :: 'l' :: 'l' :: rest => some (Json.null, rest)
    | 't' :: 'r' :: 'u' :: 'e' :: rest => some (Json.bool true, rest)
    | 'f' :: 'a' :: 'l' :: 's' :: 'e' :: rest => some (Json.bool false, rest)
    | '"' :: rest =>
      match parseStringChars rest with
      | some (s, r) => some (Json.str (String.mk s), r)
      | none => none
    | '[' :: rest =>
      match skipWs rest with
      | ']' :: r2 => some (Json.arr [], r2)
      | _ =>
        match parseElems fuel rest with
        | some (xs, r2) => some (Json.arr xs, r2)
        | none => none
    | '\x7b' :: rest =>
      match skipWs rest with
      | '\x7d' :: r2 => some (Json.obj [], r2)
      | _ =>
        match parseMembers fuel rest with
        | some (fs, r2) => some (Json.obj fs, r2)
        | none => none
    | c :: rest =>
      if c == '-' || c.isDigit then
        match parseIntLit (c :: rest) with
        | some (n, r) => some (Json.num n, r)
        | none => none
      else none
    | [] => none

/-- One or more comma-separated array elements followed by the closing
bracket. -/
def parseElems : Nat → List Char → Option (List Json × List Char)
  | 0, _ => none
  | Nat.succ fuel, cs =>
    match parseVal fuel cs with
    | none => none
    | some (v, r) =>
      match skipWs r with
      | ',' :: r2 =>
        match parseElems fuel r2 with
        | some (vs, r3) => some (v :: vs, r3)
        | none => none
      | ']' :: r2 => some ([v], r2)
      | _ => none

/-- One or more comma-separated object members followed by the closing
brace. -/
def parseMembers : Nat → List Char → Option (List (String × Json) × List Char)
  | 0, _ => none
  | Nat.succ fuel, cs =>
    match skipWs cs with
    | '"' :: rest =>
      match parseStringChars rest with
      | none => none
      | some (k, r) =>
        match skipWs r with
        | ':' :: r2 =>
          match parseVal fuel r2 with
          | none => none
          | some (v, r3) =>
            match skipWs r3 with
            | ',' :: r4 =>
              match parseMembers fuel r4 with
              | some (fs, r5) => some ((String.mk k, v) :: fs, r5)
              | none => none
            | '\x7d' :: r4 => some ([(String.mk k, v)], r4)
            | _ => none
        | _ => none
    | _ => none

end

/-- Modelled from the spec: the platform JSON.parse, external to this
repository. Returns none exactly when the input is not a JSON value of
the supported fragment, where the real function throws a SyntaxError. -/
def jsonParse (s : String) : Option Json :=
  match parseVal (2 * s.length + 2) s.toList with
  | none => none
  | some (v, rest) => if skipWs rest = [] then some v else none

/-- The useState initializer for images (src/app/page.tsx lines 42-48).
The argument is the value localStorage.getItem returned (none for null).
A null or empty-string value is falsy and yields the empty store;
otherwise JSON.parse is applied with no guard, so a parse failure
(modelled as none) propagates as a thrown exception out of the
initializer rather than producing a store. -/
def loadStore (saved : Option String) : Option Json :=
  match saved with
  | none => some (Json.arr [])
  | some s => if s = "" then some (Json.arr []) else jsonParse s

/-- Wire spelling of each status, from the union type in
src/app/page.tsx. -/
def statusString : Status → String
  | Status.loading => "loading"
  | Status.complete => "complete"
  | Status.error => "error"

/-- Inverse of statusString. -/
def statusOfString (s : String) : Option Status :=
  if s = "loading" then some Status.loading
  else if s = "complete" then some Status.complete
  else if s = "error" then some Status.error
  else none

/-- An optional string field: JSON.stringify omits a key whose value is
absent. -/
def optStrField (k : String) : Option String → List (String × Json)
  | some v => [(k, Json.str v)]
  | none => []

/-- An optional numeric field, likewise omitted when absent. -/
def optNumField (k : String) : Option Nat → List (String × Json)
  | some v => [(k, Json.num (v : Int))]
  | none => []

/-- The JSON object JSON.stringify writes for one record: every field of
the GeneratedImage interface, optional fields omitted when absent. Key
order follows the interface declaration; the decoder looks fields up by
name, so key order is immaterial to the round trip. -/
def encodeImage (img : GeneratedImage) : Json :=
  Json.obj
    ([("id", Json.str img.id), ("prompt", Json.str img.prompt),
      ("status", Json.str (statusString img.status))]
     ++ optStrField "url" img.url
     ++ optStrField "error" img.error
     ++ [("startTime", Json.num (img.startTime : Int))]
     ++ optNumField "completionTime" img.completionTime)

/-- First field with the given key, the lookup JS property access
performs on a parsed object. -/
def jget (fields : List (String × Json)) (k : String) : Option Json :=
  match fields with
  | [] => none
  | (k2, v) :: rest => if k2 = k then some v else jget rest k

/-- A required string field. -/
def jgetStr (fields : List (String × Json)) (k : String) : Option String :=
  match jget fields k with
  | some (Json.str s) => some s
  | _ => none

/-- An optional string field: an absent key reads as undefined. -/
def jgetOptStr (fields : List (String × Json)) (k : String) :
    Option (Option String) :=
  match jget fields k with
  | none => some none
  | some (Json.str s) => some (some s)
  | _ => none

/-- A required non-negative numeric field. -/
def jgetNat (fields : List (String × Json)) (k : String) : Option Nat :=
  match jget fields k with
  | some (Json.num (Int.ofNat n)) => some n
  | _ => none

/-- An optional non-negative numeric field. -/
def jgetOptNat (fields : List (String × Json)) (k : String) :
    Option (Option Nat) :=
  match jget fields k with
  | none => some none
  | some (Json.num (Int.ofNat n)) => some (some n)
  | _ => none

/-- Reading one record back from its parsed JSON object, per the
GeneratedImage interface the initializer casts the parsed value to. -/
def decodeImage (j : Json) : Option GeneratedImage :=
  match j with
  | Json.obj fields =>
    match jgetStr fields "id", jgetStr fields "prompt",
          (jgetStr fields "status").bind statusOfString,
          jgetOptStr fields "url", jgetOptStr fields "error",
          jgetNat fields "startTime", jgetOptNat fields "completionTime" with
    | some id, some prompt, some status, some url, some err, some st,
      some ct =>
      some { id := id, prompt := prompt, status := status, url := url,
             error := err, startTime := st, completionTime := ct }
    | _, _, _, _, _, _, _ => none
  | _ => none

/-- The persisted layout (src/app/page.tsx line 52): the whole images
array, in store order, one object per record. -/
def encodeStore (images : List GeneratedImage) : Json :=
  Json.arr (images.map encodeImage)

/-- Reading a parsed record array back, record by record, in order; any
unreadable element fails the whole read. -/
def decodeImages : List Json → Option (List GeneratedImage)
  | [] => some []
  | j :: rest =>
    match decodeImage j, decodeImages rest with
    | some img, some imgs => some (img :: imgs)
    | _, _ => none

/-- Reading the whole store back from its persisted JSON value. -/
def decodeStore (j : Json) : Option (List GeneratedImage) :=
  match j with
  | Json.arr xs => decodeImages xs
  | _ => none

/-- Response classification: a payload that is not a terminal report. -/
def nonTerminalResp (r : PollResponse) : Bool :=
  match r with
  | PollResponse.success _ => false
  | PollResponse.error _ => false
  | _ => true

/-- Check that during one loop pass every response consumed by a query for
jid satisfies P. Mirrors the consumption discipline of pollJobs: a
malformed id issues no query and consumes no response. -/
def respTo (jid : String) (P : PollResponse → Bool) :
    List String → List PollResponse → Bool
  | [], _ => true
  | j :: rest, resps =>
    if malformedId j then respTo jid P rest resps
    else
      match resps with
      | [] => ((j != jid) || P PollResponse.transportFail) && respTo jid P rest []
      | resp :: more => ((j != jid) || P resp) && respTo jid P rest more

/-- A sequence of timer firings: fold pollRound over a list of rounds,
each given by its clock reading and its response stream. -/
def pollRounds (rounds : List (Nat × List PollResponse)) (s : HomeState) :
    HomeState :=
  rounds.foldl (fun t p => pollRound p.1 p.2 t) s

/-- A transport-level query failure: the fetch rejected or the response
was non-ok, both of which land in the same catch block. -/
def isTransient (r : PollResponse) : Bool :=
  match r with
  | PollResponse.transportFail => true
  | _ => false

/-- The submission outcomes the generateImage catch block classifies as
failures: a rejected fetch, a non-ok response, and a response whose
job-id field is falsy (absent or the empty string). -/
def isSubmitFailure (o : SubmitOutcome) : Bool :=
  match o with
  | SubmitOutcome.transportFail => true
  | SubmitOutcome.httpNotOk => true
  | SubmitOutcome.response none => true
  | SubmitOutcome.response (some jobId) => jobId == ""

/-- Concrete run: submit a job, then delete it while it is still being
polled. -/
def delState : HomeState := deleteImage "a" (submitSuccess "a" "p" 0 initState)

/-- Concrete run: the gateway hands out the same id twice. -/
def dupState : HomeState :=
  submitSuccess "a" "q" 1 (submitSuccess "a" "p" 0 initState)

/-- Concrete run: one freshly submitted job. -/
def wSubmitted : HomeState := submitSuccess "a" "p" 0 initState

/-- Concrete run: the submitted job has completed successfully. -/
def wDone : HomeState := pollRound 5 [PollResponse.success "u"] wSubmitted

/-- Concrete operation sequence that never resubmits the id "a". -/
def wOps : List Op :=
  [Op.poll 5 [PollResponse.success "u"], Op.delete "b", Op.submit "c" "q" 7]

/-- Concrete state whose working set carries the sentinel id. -/
def wMalformed : HomeState :=
  { images := [mkImage "undefined" "p" 0], pendingJobs := ["undefined"] }

theorem idsOf_reconcileSuccess (images : List GeneratedImage)
    (j url : String) (now : Nat) :
    idsOf (reconcileSuccess images j url now) = idsOf images := by
  unfold idsOf reconcileSuccess
  rw [List.map_map]
  apply List.map_congr_left
  intro img _
  by_cases h : img.id = j <;> simp [h]

theorem idsOf_reconcileError (images : List GeneratedImage)
    (j msg : String) (now : Nat) :
    idsOf (reconcileError images j msg now) = idsOf images := by
  unfold idsOf reconcileError
  rw [List.map_map]
  apply List.map_congr_left
  intro img _
  by_cases h : img.id = j <;> simp [h]

theorem length_idsOf (images : List GeneratedImage) :
    (idsOf images).length = images.length := by
  simp [idsOf]

theorem pollJobs_idsOf (now : Nat) (jobs : List String)
    (resps : List PollResponse) (images : List GeneratedImage) :
    idsOf (pollJobs now jobs resps images).1 = idsOf images := by
  induction jobs generalizing images resps with
  | nil => simp [pollJobs]
  | cons j rest ih =>
    by_cases hm : malformedId j
    · simp [pollJobs, hm, ih]
    · rcases resps with _ | ⟨resp, more⟩
      · simp [pollJobs, hm, ih]
      · cases resp <;>
          simp [pollJobs, hm, ih, idsOf_reconcileSuccess,
            idsOf_reconcileError]

theorem pollJobs_length (now : Nat) (jobs : List String)
    (resps : List PollResponse) (images : List GeneratedImage) :
    (pollJobs now jobs resps images).1.length = images.length := by
  have h := pollJobs_idsOf now jobs resps images
  have h1 := length_idsOf (pollJobs now jobs resps images).1
  have h2 := length_idsOf images
  rw [h] at h1
  omega

theorem pollJobs_completed_sub (now : Nat) (jobs : List String)
    (resps : List PollResponse) (images : List GeneratedImage) :
    ∀ j ∈ (pollJobs now jobs resps images).2.1, j ∈ jobs := by
  induction jobs generalizing images resps with
  | nil => simp [pollJobs]
  | cons j rest ih =>
    intro x hx
    by_cases hm : malformedId j
    · simp only [pollJobs, hm, if_pos, List.mem_cons] at hx
      rcases hx with h | h
      · exact List.mem_cons.mpr (Or.inl h)
      · exact List.mem_cons.mpr (Or.inr (ih _ _ x h))
    · rcases resps with _ | ⟨resp, more⟩
      · simp only [pollJobs, hm, Bool.false_eq_true, if_false] at hx
        exact List.mem_cons.mpr (Or.inr (ih _ _ x hx))
      · cases resp <;>
          simp only [pollJobs, hm, Bool.false_eq_true, if_false,
            List.mem_cons] at hx
        · exact List.mem_cons.mpr (Or.inr (ih _ _ x hx))
        · exact List.mem_cons.mpr (Or.inr (ih _ _ x hx))
        · rcases hx with h | h
          · exact List.mem_cons.mpr (Or.inl h)
          · exact List.mem_cons.mpr (Or.inr (ih _ _ x h))
        · rcases hx with h | h
          · exact List.mem_cons.mpr (Or.inl h)
          · exact List.mem_cons.mpr (Or.inr (ih _ _ x h))

theorem pollJobs_queried (now : Nat) (jobs : List String)
    (resps : List PollResponse) (images : List GeneratedImage) :
    (pollJobs now jobs resps images).2.2 =
      jobs.filter (fun j => !(malformedId j)) := by
  induction jobs generalizing images resps with
  | nil => simp [pollJobs]
  | cons j rest ih =>
    by_cases hm : malformedId j
    · simp [pollJobs, hm, ih]
    · rcases resps with _ | ⟨resp, more⟩
      · simp [pollJobs, hm, ih]
      · cases resp <;> simp [pollJobs, hm, ih]

theorem reconcileSuccess_getElemQ (images : List GeneratedImage)
    (j url : String) (now : Nat) (i : Nat) :
    (reconcileSuccess images j url now)[i]? =
      (images[i]?).map (fun img =>
        if img.id = j then
          { img with status := Status.complete, url := some url,
                     completionTime := some now }
        else img) := by
  simp [reconcileSuccess]

theorem reconcileError_getElemQ (images : List GeneratedImage)
    (j msg : String) (now : Nat) (i : Nat) :
    (reconcileError images j msg now)[i]? =
      (images[i]?).map (fun img =>
        if img.id = j then
          { img with status := Status.error, error := some msg,
                     completionTime := some now }
        else img) := by
  simp [reconcileError]

theorem malformedId_ne_of_wf {a b : String} (ha : malformedId a = false)
    (hb : malformedId b = true) : a ≠ b := by
  intro h
  rw [h, hb] at ha
  exact Bool.noConfusion ha

theorem respTo_of_malformed {jid : String} (P : PollResponse → Bool)
    (hjid : malformedId jid = true) (jobs : List String)
    (resps : List PollResponse) : respTo jid P jobs resps = true := by
  induction jobs generalizing resps with
  | nil => simp [respTo]
  | cons j rest ih =>
    cases hm : malformedId j with
    | true => simp [respTo, hm, ih]
    | false =>
      have hne : j ≠ jid := malformedId_ne_of_wf hm hjid
      rcases resps with _ | ⟨resp, more⟩ <;> simp [respTo, hm, hne, ih]

theorem pollJobs_malformed_completed (now : Nat) {j : String}
    (jobs : List String) (resps : List PollResponse)
    (images : List GeneratedImage) (hj : j ∈ jobs)
    (hm : malformedId j = true) :
    j ∈ (pollJobs now jobs resps images).2.1 := by
  induction jobs generalizing images resps with
  | nil => cases hj
  | cons j2 rest ih =>
    rcases List.mem_cons.mp hj with h | h
    · subst h
      simp [pollJobs, hm]
    · by_cases hm2 : malformedId j2
      · simp only [pollJobs, hm2, if_pos, List.mem_cons]
        exact Or.inr (ih _ _ h)
      · rcases resps with _ | ⟨resp, more⟩
        · simp only [pollJobs, hm2, Bool.false_eq_true, if_false]
          exact ih _ _ h
        · cases resp <;>
            simp only [pollJobs, hm2, Bool.false_eq_true, if_false,
              List.mem_cons]
          · exact ih _ _ h
          · exact ih _ _ h
          · exact Or.inr (ih _ _ h)
          · exact Or.inr (ih _ _ h)

theorem pollJobs_not_completed (now : Nat) {jid : String}
    (jobs : List String) (resps : List PollResponse)
    (images : List GeneratedImage) (hwf : malformedId jid = false)
    (hresp : respTo jid nonTerminalResp jobs resps = true) :
    jid ∉ (pollJobs now jobs resps images).2.1 := by
  induction jobs generalizing images resps with
  | nil => simp [pollJobs]
  | cons j rest ih =>
    by_cases hm : malformedId j
    · have hne : jid ≠ j := fun h => by rw [h, hm] at hwf; cases hwf
      simp only [respTo, hm, if_pos] at hresp
      simp only [pollJobs, hm, if_pos, List.mem_cons, not_or]
      exact ⟨hne, ih _ _ hresp⟩
    · rcases resps with _ | ⟨resp, more⟩
      · simp only [respTo, hm, Bool.false_eq_true, if_false,
          Bool.and_eq_true] at hresp
        simp only [pollJobs, hm, Bool.false_eq_true, if_false]
        exact ih _ _ hresp.2
      · cases resp <;>
          simp only [respTo, hm, Bool.false_eq_true, if_false,
            Bool.and_eq_true, Bool.or_eq_true, bne_iff_ne, ne_eq,
            nonTerminalResp] at hresp <;>
          simp only [pollJobs, hm, Bool.false_eq_true, if_false,
            List.mem_cons, not_or]
        · exact ih _ _ hresp.2
        · exact ih _ _ hresp.2
        · rcases hresp with ⟨h1, h2⟩
          rcases h1 with h1 | h1
          · exact ⟨fun h => h1 h.symm, ih _ _ h2⟩
          · cases h1
        · rcases hresp with ⟨h1, h2⟩
          rcases h1 with h1 | h1
          · exact ⟨fun h => h1 h.symm, ih _ _ h2⟩
          · cases h1

theorem pollJobs_untouched (now : Nat) {jid : String} (jobs : List String)
    (resps : List PollResponse) (images : List GeneratedImage)
    (hresp : respTo jid nonTerminalResp jobs resps = true) :
    ∀ (i : Nat) (x : GeneratedImage), images[i]? = some x → x.id = jid →
      (pollJobs now jobs resps images).1[i]? = some x := by
  induction jobs generalizing images resps with
  | nil =>
    intro i x hx _
    simpa [pollJobs] using hx
  | cons j rest ih =>
    intro i x hx hid
    cases hm : malformedId j with
    | true =>
      simp only [respTo, hm, if_true] at hresp
      simp only [pollJobs, hm, if_pos]
      exact ih _ _ hresp i x hx hid
    | false =>
      rcases resps with _ | ⟨resp, more⟩
      · simp only [respTo, hm, Bool.false_eq_true, if_false,
          Bool.and_eq_true] at hresp
        simp only [pollJobs, hm, Bool.false_eq_true, if_false]
        exact ih _ _ hresp.2 i x hx hid
      · cases resp with
        | transportFail =>
          simp only [respTo, hm, Bool.false_eq_true, if_false,
            Bool.and_eq_true] at hresp
          simp only [pollJobs, hm, Bool.false_eq_true, if_false]
          exact ih _ _ hresp.2 i x hx hid
        | pending =>
          simp only [respTo, hm, Bool.false_eq_true, if_false,
            Bool.and_eq_true] at hresp
          simp only [pollJobs, hm, Bool.false_eq_true, if_false]
          exact ih _ _ hresp.2 i x hx hid
        | success url =>
          simp only [respTo, hm, Bool.false_eq_true, if_false,
            Bool.and_eq_true, Bool.or_eq_true, bne_iff_ne, ne_eq,
            nonTerminalResp] at hresp
          simp only [pollJobs, hm, Bool.false_eq_true, if_false]
          rcases hresp with ⟨h1, h2⟩
          rcases h1 with h1 | h1
          · have hxj : ¬ x.id = j := by
              rw [hid]
              exact fun h => h1 h.symm
            apply ih _ _ h2 i x _ hid
            rw [reconcileSuccess_getElemQ, hx]
            simp [hxj]
          · cases h1
        | error msg =>
          simp only [respTo, hm, Bool.false_eq_true, if_false,
            Bool.and_eq_true, Bool.or_eq_true, bne_iff_ne, ne_eq,
            nonTerminalResp] at hresp
          simp only [pollJobs, hm, Bool.false_eq_true, if_false]
          rcases hresp with ⟨h1, h2⟩
          rcases h1 with h1 | h1
          · have hxj : ¬ x.id = j := by
              rw [hid]
              exact fun h => h1 h.symm
            apply ih _ _ h2 i x _ hid
            rw [reconcileError_getElemQ, hx]
            simp [hxj]
          · cases h1

theorem pollJobs_dichotomy (now : Nat) (jobs : List String)
    (resps : List PollResponse) (images : List GeneratedImage) :
    ∀ (i : Nat) (x : GeneratedImage), images[i]? = some x →
      (pollJobs now jobs resps images).1[i]? = some x ∨
        x.id ∈ (pollJobs now jobs resps images).2.1 := by
  induction jobs generalizing images resps with
  | nil =>
    intro i x hx
    left
    simpa [pollJobs] using hx
  | cons j rest ih =>
    intro i x hx
    cases hm : malformedId j with
    | true =>
      rcases ih resps images i x hx with h | h
      · left
        simpa [pollJobs, hm] using h
      · right
        simp only [pollJobs, hm, if_pos, List.mem_cons]
        exact Or.inr h
    | false =>
      rcases resps with _ | ⟨resp, more⟩
      · rcases ih [] images i x hx with h | h
        · left
          simpa [pollJobs, hm] using h
        · right
          simpa [pollJobs, hm] using h
      · cases resp with
        | transportFail =>
          rcases ih more images i x hx with h | h
          · left
            simpa [pollJobs, hm] using h
          · right
            simpa [pollJobs, hm] using h
        | pending =>
          rcases ih more images i x hx with h | h
          · left
            simpa [pollJobs, hm] using h
          · right
            simpa [pollJobs, hm] using h
        | success url =>
          by_cases hxj : x.id = j
          · right
            simp only [pollJobs, hm, Bool.false_eq_true, if_false,
              List.mem_cons]
            exact Or.inl hxj
          · have hx2 : (reconcileSuccess images j url now)[i]? = some x := by
              rw [reconcileSuccess_getElemQ, hx]
              simp [hxj]
            rcases ih more (reconcileSuccess images j url now) i x hx2 with
              h | h
            · left
              simpa [pollJobs, hm] using h
            · right
              simp only [pollJobs, hm, Bool.false_eq_true, if_false,
                List.mem_cons]
              exact Or.inr h
        | error msg =>
          by_cases hxj : x.id = j
          · right
            simp only [pollJobs, hm, Bool.false_eq_true, if_false,
              List.mem_cons]
            exact Or.inl hxj
          · have hx2 : (reconcileError images j msg now)[i]? = some x := by
              rw [reconcileError_getElemQ, hx]
              simp [hxj]
            rcases ih more (reconcileError images j msg now) i x hx2 with
              h | h
            · left
              simpa [pollJobs, hm] using h
            · right
              simp only [pollJobs, hm, Bool.false_eq_true, if_false,
                List.mem_cons]
              exact Or.inr h

theorem pollRound_images (now : Nat) (resps : List PollResponse)
    (s : HomeState) :
    (pollRound now resps s).images =
      (pollJobs now s.pendingJobs resps s.images).1 := rfl

theorem pollRound_pendingJobs (now : Nat) (resps : List PollResponse)
    (s : HomeState) :
    (pollRound now resps s).pendingJobs =
      s.pendingJobs.filter
        (fun j => !((pollJobs now s.pendingJobs resps s.images).2.1.contains j)) := by
  show (if (pollJobs now s.pendingJobs resps s.images).2.1.isEmpty then _
        else _) = _
  cases hc : (pollJobs now s.pendingJobs resps s.images).2.1 with
  | nil => simp
  | cons a l => simp

theorem mem_pollRound_pendingJobs (now : Nat) (resps : List PollResponse)
    (s : HomeState) (j : String) :
    j ∈ (pollRound now resps s).pendingJobs ↔
      j ∈ s.pendingJobs ∧
        j ∉ (pollJobs now s.pendingJobs resps s.images).2.1 := by
  rw [pollRound_pendingJobs]
  simp [List.mem_filter]

theorem pollRound_idsOf (now : Nat) (resps : List PollResponse)
    (s : HomeState) :
    idsOf (pollRound now resps s).images = idsOf s.images :=
  pollJobs_idsOf now s.pendingJobs resps s.images

theorem pollJobs_getElemQ_id (now : Nat) (jobs : List String)
    (resps : List PollResponse) (images : List GeneratedImage) (i : Nat) :
    ((pollJobs now jobs resps images).1[i]?).map (fun img => img.id) =
      (images[i]?).map (fun img => img.id) := by
  have h1 : (idsOf (pollJobs now jobs resps images).1)[i]? =
      (idsOf images)[i]? := by
    rw [pollJobs_idsOf]
  simpa [idsOf] using h1

theorem deleteImage_pendingJobs (id : String) (s : HomeState) :
    (deleteImage id s).pendingJobs = s.pendingJobs := rfl

theorem not_mem_idsOf_deleteImage (id : String) (s : HomeState) :
    id ∉ idsOf (deleteImage id s).images := by
  simp only [deleteImage, idsOf, List.mem_map]
  rintro ⟨img, hmem, hid⟩
  have := (List.mem_filter.mp hmem).2
  rw [hid] at this
  simp at this

theorem idsOf_submitSuccess (id p : String) (now : Nat) (s : HomeState) :
    idsOf (submitSuccess id p now s).images = id :: idsOf s.images := rfl

theorem terminalRetired_init : TerminalRetired initState := by
  intro img hmem
  cases hmem

theorem terminalRetired_submit {s : HomeState} (hI : TerminalRetired s)
    {id : String} (p : String) (now : Nat)
    (hfresh : id ∉ idsOf s.images) :
    TerminalRetired (submitSuccess id p now s) := by
  intro img hmem hterm
  rcases List.mem_cons.mp hmem with h | h
  · rcases hterm with h2 | h2 <;> rw [h] at h2 <;> cases h2
  · have h1 : img.id ∉ s.pendingJobs := hI img h hterm
    have h2 : img.id ≠ id := by
      intro he
      exact hfresh (he ▸ List.mem_map.mpr ⟨img, h, rfl⟩)
    simp only [submitSuccess, List.mem_append, List.mem_singleton, not_or]
    exact ⟨h1, h2⟩

theorem terminalRetired_delete {s : HomeState} (hI : TerminalRetired s)
    (id : String) : TerminalRetired (deleteImage id s) := by
  intro img hmem hterm
  exact hI img (List.mem_filter.mp hmem).1 hterm

theorem terminalRetired_poll {s : HomeState} (hI : TerminalRetired s)
    (now : Nat) (resps : List PollResponse) :
    TerminalRetired (pollRound now resps s) := by
  intro img hmem hterm
  rw [pollRound_images] at hmem
  obtain ⟨i, hi, hget⟩ := List.mem_iff_getElem.mp hmem
  have hlen : i < s.images.length := by
    rw [← pollJobs_length now s.pendingJobs resps s.images]
    exact hi
  have hxq : s.images[i]? = some s.images[i] := List.getElem?_eq_getElem hlen
  have hres : (pollJobs now s.pendingJobs resps s.images).1[i]? = some img := by
    rw [List.getElem?_eq_getElem hi, hget]
  have hid : img.id = s.images[i].id := by
    have h := pollJobs_getElemQ_id now s.pendingJobs resps s.images i
    rw [hres, hxq] at h
    simpa using h
  rcases pollJobs_dichotomy now s.pendingJobs resps s.images i s.images[i]
      hxq with h | h
  · have himg : img = s.images[i] := by
      rw [hres] at h
      exact Option.some_injective _ h
    rw [mem_pollRound_pendingJobs]
    rintro ⟨h1, _⟩
    exact hI s.images[i] (List.getElem_mem hlen) (himg ▸ hterm) (himg ▸ h1)
  · rw [mem_pollRound_pendingJobs]
    rintro ⟨_, h2⟩
    exact h2 (hid ▸ h)

theorem reachF_terminalRetired {s : HomeState} (h : ReachF s) :
    TerminalRetired s := by
  induction h with
  | init => exact terminalRetired_init
  | submit id p now _ hfresh _ ih => exact terminalRetired_submit ih p now hfresh
  | delete id _ ih => exact terminalRetired_delete ih id
  | poll now resps _ ih => exact terminalRetired_poll ih now resps

/-- C9 (amended): the store's append performs no duplicate check and no
DuplicateIdError path exists; uniqueness of record ids instead rests on
the spec's assumption that the gateway issues fresh ids, under which
every reachable store state has pairwise-distinct record ids across any
sequence of submit, delete and poll operations. -/
theorem store_ids_nodup {s : HomeState} (h : ReachF s) :
    (idsOf s.images).Nodup := by
  induction h with
  | init => simp [initState, idsOf]
  | submit id p now _ hfresh _ ih =>
    rw [idsOf_submitSuccess]
    exact List.nodup_cons.mpr ⟨hfresh, ih⟩
  | delete id _ ih =>
    apply ih.sublist
    simp only [deleteImage, idsOf]
    exact (List.filter_sublist _).map _
  | poll now resps _ ih =>
    rw [pollRound_idsOf]
    exact ih

theorem applyOps_cons (s : HomeState) (op : Op) (ops : List Op) :
    applyOps s (op :: ops) = applyOps (applyOp s op) ops := rfl

theorem mem_idsOf_applyOp {s : HomeState} {jid : String} (op : Op)
    (hnotsub : ¬ op.submitsId jid) (h : jid ∉ idsOf s.images) :
    jid ∉ idsOf (applyOp s op).images := by
  cases op with
  | submit id2 p2 now2 =>
    have hne : ¬ jid = id2 := fun he => hnotsub he.symm
    intro hmem
    rcases List.mem_cons.mp
        (by simpa [applyOp, idsOf_submitSuccess] using hmem) with h1 | h1
    · exact hne h1
    · exact h h1
  | delete id2 =>
    intro hmem
    apply h
    simp only [applyOp, deleteImage, idsOf, List.mem_map] at hmem
    obtain ⟨img, hmem2, hid⟩ := hmem
    exact List.mem_map.mpr ⟨img, (List.mem_filter.mp hmem2).1, hid⟩
  | poll now2 resps2 =>
    show jid ∉ idsOf (pollRound now2 resps2 s).images
    rw [pollRound_idsOf]
    exact h

theorem absent_preserved {jid : String} (ops : List Op) :
    ∀ (s : HomeState), jid ∉ idsOf s.images →
      (∀ op ∈ ops, ¬ op.submitsId jid) →
      jid ∉ idsOf (applyOps s ops).images := by
  induction ops with
  | nil =>
    intro s h _
    exact h
  | cons op rest ih =>
    intro s h hops
    have h1 := mem_idsOf_applyOp op (hops op (List.mem_cons_self op rest)) h
    exact ih (applyOp s op) h1
      (fun o ho => hops o (List.mem_cons.mpr (Or.inr ho)))

theorem effectiveWorkingSet_sub {s : HomeState} {j : String}
    (h : j ∈ effectiveWorkingSet s) : j ∈ idsOf s.images := by
  simp only [effectiveWorkingSet, idsOf, List.mem_map] at h ⊢
  obtain ⟨img, hmem, hid⟩ := h
  exact ⟨img, (List.mem_filter.mp hmem).1, hid⟩

theorem reconcileSuccess_absent {images : List GeneratedImage}
    {jid : String} (h : jid ∉ idsOf images) (url : String) (now : Nat) :
    reconcileSuccess images jid url now = images := by
  have heq : ∀ img ∈ images,
      (if img.id = jid then
        { img with status := Status.complete, url := some url,
                   completionTime := some now }
      else img) = id img := by
    intro img hmem
    have hne : ¬ img.id = jid :=
      fun he => h (List.mem_map.mpr ⟨img, hmem, he⟩)
    simp [hne]
  rw [reconcileSuccess, List.map_congr_left heq, List.map_id]

theorem reconcileError_absent {images : List GeneratedImage}
    {jid : String} (h : jid ∉ idsOf images) (msg : String) (now : Nat) :
    reconcileError images jid msg now = images := by
  have heq : ∀ img ∈ images,
      (if img.id = jid then
        { img with status := Status.error, error := some msg,
                   completionTime := some now }
      else img) = id img := by
    intro img hmem
    have hne : ¬ img.id = jid :=
      fun he => h (List.mem_map.mpr ⟨img, hmem, he⟩)
    simp [hne]
  rw [reconcileError, List.map_congr_left heq, List.map_id]

theorem respTo_mono {jid : String} {P Q : PollResponse → Bool}
    (hPQ : ∀ r, P r = true → Q r = true) (jobs : List String) :
    ∀ (resps : List PollResponse), respTo jid P jobs resps = true →
      respTo jid Q jobs resps = true := by
  induction jobs with
  | nil =>
    intro resps _
    simp [respTo]
  | cons j rest ih =>
    intro resps h
    cases hm : malformedId j with
    | true =>
      simp only [respTo, hm, if_true] at h ⊢
      exact ih _ h
    | false =>
      rcases resps with _ | ⟨resp, more⟩ <;>
        simp only [respTo, hm, Bool.false_eq_true, if_false,
          Bool.and_eq_true, Bool.or_eq_true] at h ⊢
      · rcases h with ⟨h1, h2⟩
        refine ⟨?_, ih _ h2⟩
        rcases h1 with h1 | h1
        · exact Or.inl h1
        · exact Or.inr (hPQ _ h1)
      · rcases h with ⟨h1, h2⟩
        refine ⟨?_, ih _ h2⟩
        rcases h1 with h1 | h1
        · exact Or.inl h1
        · exact Or.inr (hPQ _ h1)

theorem respTo_of_not_mem {jid : String} (P : PollResponse → Bool)
    (jobs : List String) :
    ∀ (resps : List PollResponse), jid ∉ jobs →
      respTo jid P jobs resps = true := by
  induction jobs with
  | nil =>
    intro resps _
    simp [respTo]
  | cons j rest ih =>
    intro resps h
    have hne : (j != jid) = true := by
      simp only [bne_iff_ne, ne_eq]
      intro he
      exact h (he ▸ List.mem_cons_self j rest)
    have hrest : jid ∉ rest := fun hr => h (List.mem_cons.mpr (Or.inr hr))
    cases hm : malformedId j with
    | true =>
      simp only [respTo, hm, if_true]
      exact ih _ hrest
    | false =>
      rcases resps with _ | ⟨resp, more⟩ <;>
        simp only [respTo, hm, Bool.false_eq_true, if_false,
          Bool.and_eq_true, Bool.or_eq_true]
      · exact ⟨Or.inl hne, ih _ hrest⟩
      · exact ⟨Or.inl hne, ih _ hrest⟩

theorem respTo_all_transient {jid : String} (jobs : List String) :
    ∀ (resps : List PollResponse),
      (∀ r ∈ resps, r = PollResponse.transportFail) →
      respTo jid isTransient jobs resps = true := by
  induction jobs with
  | nil =>
    intro resps _
    simp [respTo]
  | cons j rest ih =>
    intro resps hall
    cases hm : malformedId j with
    | true =>
      simp only [respTo, hm, if_true]
      exact ih resps hall
    | false =>
      rcases resps with _ | ⟨resp, more⟩
      · simp only [respTo, hm, Bool.false_eq_true, if_false,
          Bool.and_eq_true, Bool.or_eq_true]
        exact ⟨Or.inr rfl, ih [] (by intro r hr; cases hr)⟩
      · have hr : resp = PollResponse.transportFail :=
          hall resp (List.mem_cons_self resp more)
        subst hr
        simp only [respTo, hm, Bool.false_eq_true, if_false,
          Bool.and_eq_true, Bool.or_eq_true]
        exact ⟨Or.inr rfl,
          ih more (fun r hrm => hall r (List.mem_cons.mpr (Or.inr hrm)))⟩

theorem transient_round_aux (s : HomeState) {j : String}
    (hwf : malformedId j = false) (hj : j ∈ s.pendingJobs) (now : Nat)
    (resps : List PollResponse)
    (hresp : respTo j isTransient s.pendingJobs resps = true) :
    j ∈ (pollRound now resps s).pendingJobs ∧
    ∀ (i : Nat) (x : GeneratedImage), s.images[i]? = some x → x.id = j →
      (pollRound now resps s).images[i]? = some x := by
  have hnt : respTo j nonTerminalResp s.pendingJobs resps = true := by
    apply respTo_mono _ _ _ hresp
    intro r hr
    cases r <;> simp [isTransient, nonTerminalResp] at hr ⊢
  constructor
  · rw [mem_pollRound_pendingJobs]
    exact ⟨hj, pollJobs_not_completed now _ resps s.images hwf hnt⟩
  · intro i x hx hid
    rw [pollRound_images]
    exact pollJobs_untouched now _ resps s.images hnt i x hx hid

theorem transient_rounds_aux {j : String} (hwf : malformedId j = false)
    (rounds : List (Nat × List PollResponse)) :
    ∀ (s : HomeState),
      (∀ p ∈ rounds, ∀ r ∈ p.2, r = PollResponse.transportFail) →
      j ∈ s.pendingJobs →
      j ∈ (pollRounds rounds s).pendingJobs ∧
      ∀ (i : Nat) (x : GeneratedImage), s.images[i]? = some x → x.id = j →
        (pollRounds rounds s).images[i]? = some x := by
  induction rounds with
  | nil =>
    intro s _ hj
    exact ⟨hj, fun i x hx _ => hx⟩
  | cons p rest ih =>
    intro s hall hj
    have hresp : respTo j isTransient s.pendingJobs p.2 = true :=
      respTo_all_transient _ _ (hall p (List.mem_cons_self p rest))
    have h1 := transient_round_aux s hwf hj p.1 p.2 hresp
    have hall2 : ∀ q ∈ rest, ∀ r ∈ q.2, r = PollResponse.transportFail :=
      fun q hq => hall q (List.mem_cons.mpr (Or.inr hq))
    have h2 := ih (pollRound p.1 p.2 s) hall2 h1.1
    exact ⟨h2.1, fun i x hx hid => h2.2 i x (h1.2 i x hx hid) hid⟩

theorem decodeImage_encodeImage (img : GeneratedImage) :
    decodeImage (encodeImage img) = some img := by
  rcases img with ⟨id, prompt, status, url, err, st, ct⟩
  cases status <;> rcases url with _ | u <;> rcases err with _ | e <;>
    rcases ct with _ | t <;> rfl

/-- C1: deleting a job removes its record from the Job Store and hence
from the effective (store-derived) working set, and no later interleaving
of operations that does not resubmit the id — in particular a stale
SUCCESS or ERROR reconciliation for it — ever resurrects a record with
that id; the stale reconciliations themselves are literal no-ops on the
deleted store. -/
theorem delete_no_resurrection (s : HomeState) (id : String)
    (ops : List Op) (hops : ∀ op ∈ ops, ¬ op.submitsId id) :
    id ∉ idsOf (applyOps (deleteImage id s) ops).images ∧
    id ∉ effectiveWorkingSet (applyOps (deleteImage id s) ops) ∧
    ∀ (url msg : String) (now : Nat),
      reconcileSuccess (deleteImage id s).images id url now =
          (deleteImage id s).images ∧
      reconcileError (deleteImage id s).images id msg now =
          (deleteImage id s).images := by
  have habs : id ∉ idsOf (deleteImage id s).images :=
    not_mem_idsOf_deleteImage id s
  have hmain := absent_preserved ops (deleteImage id s) habs hops
  refine ⟨hmain, fun hw => hmain (effectiveWorkingSet_sub hw), ?_⟩
  intro url msg now
  exact ⟨reconcileSuccess_absent habs url now,
    reconcileError_absent habs msg now⟩

theorem delete_no_resurrection_witness :
    "a" ∉ idsOf (applyOps (deleteImage "a" wSubmitted) wOps).images ∧
    reconcileSuccess (deleteImage "a" wSubmitted).images "a" "u" 9 =
      (deleteImage "a" wSubmitted).images :=
  ⟨(delete_no_resurrection wSubmitted "a" wOps (by decide)).1,
   ((delete_no_resurrection wSubmitted "a" wOps (by decide)).2.2
      "u" "m" 9).1⟩

/-- C2 counterexample: delete the only job while it is still being
polled. The resulting reachable state has no pending record in the
store, yet the working-set list is non-empty, so the effect schedules
the recurring timer — refuting the claimed equivalence between the timer
and the existence of a pending record. -/
theorem timer_active_without_pending_record :
    Reachable delState ∧ timerScheduled delState = true ∧
      ∀ img ∈ delState.images, img.status ≠ Status.loading := by
  refine ⟨?_, by decide, by decide⟩
  exact Relation.ReflTransGen.tail
    (Relation.ReflTransGen.single (Step.submit "a" "p" 0 initState))
    (Step.delete "a" (submitSuccess "a" "p" 0 initState))

/-- C2 (amended): the polling timer is scheduled exactly when the
working-set list pendingJobs is non-empty — not when some store record is
pending, which can differ after a deletion — and when the working set is
empty no timer work would change the state: the engine idles. -/
theorem timer_iff_working_set (s : HomeState) :
    (timerScheduled s = true ↔ s.pendingJobs ≠ []) ∧
    (s.pendingJobs = [] →
      ∀ (now : Nat) (resps : List PollResponse),
        pollRound now resps s = s) := by
  constructor
  · simp [timerScheduled]
  · intro hempty now resps
    rcases s with ⟨images, pending⟩
    simp only at hempty
    subst hempty
    rfl

theorem timer_iff_working_set_witness :
    pollRound 3 [] initState = initState :=
  (timer_iff_working_set initState).2 rfl 3 []

/-- C3: for a pending job with a well-formed id, a polling round in which
every response delivered to its queries is a transport-level failure
leaves its store record unchanged and its id in the working-set list (so
it is queried again next tick), and any number of rounds of pure
transport failures never transitions it to error and never removes it
from the working set. -/
theorem transient_failure_retries (s : HomeState) (j : String)
    (hwf : malformedId j = false) (hj : j ∈ s.pendingJobs) :
    (∀ (now : Nat) (resps : List PollResponse),
      respTo j isTransient s.pendingJobs resps = true →
      j ∈ (pollRound now resps s).pendingJobs ∧
      ∀ (i : Nat) (x : GeneratedImage), s.images[i]? = some x → x.id = j →
        (pollRound now resps s).images[i]? = some x) ∧
    (∀ (rounds : List (Nat × List PollResponse)),
      (∀ p ∈ rounds, ∀ r ∈ p.2, r = PollResponse.transportFail) →
      j ∈ (pollRounds rounds s).pendingJobs ∧
      ∀ (i : Nat) (x : GeneratedImage), s.images[i]? = some x → x.id = j →
        (pollRounds rounds s).images[i]? = some x) := by
  constructor
  · intro now resps hresp
    exact transient_round_aux s hwf hj now resps hresp
  · intro rounds hall
    exact transient_rounds_aux hwf rounds s hall hj

theorem transient_failure_retries_witness :
    "a" ∈ (pollRounds [(1, [PollResponse.transportFail]),
        (2, [PollResponse.transportFail])] wSubmitted).pendingJobs ∧
    (pollRounds [(1, [PollResponse.transportFail]),
        (2, [PollResponse.transportFail])] wSubmitted).images[0]? =
      some (mkImage "a" "p" 0) :=
  ⟨((transient_failure_retries wSubmitted "a" (by decide) (by decide)).2
      [(1, [PollResponse.transportFail]), (2, [PollResponse.transportFail])]
      (by decide)).1,
   ((transient_failure_retries wSubmitted "a" (by decide) (by decide)).2
      [(1, [PollResponse.transportFail]), (2, [PollResponse.transportFail])]
      (by decide)).2 0 (mkImage "a" "p" 0) (by decide) (by decide)⟩

/-- C4: in every state reachable under the gateway-unique-ids assumption,
a record that has reached a terminal state (complete or error) is left
untouched by any further polling round — status, url, error and all other
fields are preserved — because its id has left the working set and is
never queried again, so stray responses cannot reach it. -/
theorem terminal_immutable {s : HomeState} (hreach : ReachF s)
    (i : Nat) (x : GeneratedImage) (hx : s.images[i]? = some x)
    (hterm : Terminal x) (now : Nat) (resps : List PollResponse) :
    (pollRound now resps s).images[i]? = some x := by
  have hI := reachF_terminalRetired hreach
  have hmem : x ∈ s.images := List.getElem?_mem hx
  have hnot : x.id ∉ s.pendingJobs := hI x hmem hterm
  have hresp : respTo x.id nonTerminalResp s.pendingJobs resps = true :=
    respTo_of_not_mem nonTerminalResp s.pendingJobs resps hnot
  rw [pollRound_images]
  exact pollJobs_untouched now s.pendingJobs resps s.images hresp i x hx rfl

theorem terminal_immutable_witness :
    (pollRound 9 [PollResponse.error "boom"] wDone).images[0]? =
      some { id := "a", prompt := "p", status := Status.complete,
             url := some "u", error := none, startTime := 0,
             completionTime := some 5 } :=
  terminal_immutable
    (ReachF.poll 5 [PollResponse.success "u"]
      (ReachF.submit "a" "p" 0 ReachF.init (by decide) (by decide)))
    0 _ (by decide) (by decide) 9 [PollResponse.error "boom"]

/-- C5: a malformed working-set id (empty, i.e. falsy for a string, or
the sentinel "undefined") is never queried during a round, is removed
from the working set at the end of the round, and any store record
bearing that id is left unchanged — in particular it is not transitioned
to error. -/
theorem malformed_id_dropped (s : HomeState) (j : String)
    (hj : j ∈ s.pendingJobs) (hm : malformedId j = true) (now : Nat)
    (resps : List PollResponse) :
    j ∉ (pollJobs now s.pendingJobs resps s.images).2.2 ∧
    j ∉ (pollRound now resps s).pendingJobs ∧
    ∀ (i : Nat) (x : GeneratedImage), s.images[i]? = some x → x.id = j →
      (pollRound now resps s).images[i]? = some x := by
  refine ⟨?_, ?_, ?_⟩
  · rw [pollJobs_queried]
    intro hmem
    have h2 := (List.mem_filter.mp hmem).2
    rw [hm] at h2
    exact Bool.noConfusion h2
  · rw [mem_pollRound_pendingJobs]
    rintro ⟨_, h2⟩
    exact h2
      (pollJobs_malformed_completed now s.pendingJobs resps s.images hj hm)
  · intro i x hx hid
    rw [pollRound_images]
    exact pollJobs_untouched now _ resps s.images
      (respTo_of_malformed nonTerminalResp hm s.pendingJobs resps) i x hx
      hid

theorem malformed_id_dropped_witness :
    "undefined" ∉
        (pollJobs 3 wMalformed.pendingJobs [] wMalformed.images).2.2 ∧
    "undefined" ∉ (pollRound 3 [] wMalformed).pendingJobs ∧
    (pollRound 3 [] wMalformed).images[0]? =
      some (mkImage "undefined" "p" 0) :=
  ⟨(malformed_id_dropped wMalformed "undefined" (by decide) (by decide)
      3 []).1,
   (malformed_id_dropped wMalformed "undefined" (by decide) (by decide)
      3 []).2.1,
   (malformed_id_dropped wMalformed "undefined" (by decide) (by decide)
      3 []).2.2 0 (mkImage "undefined" "p" 0) (by decide) (by decide)⟩

/-- C6 counterexample: a corrupt (non-deserializable, non-empty)
persisted string makes the initializer propagate the JSON.parse failure
instead of producing the empty store the claim promises. -/
theorem corrupt_state_throws :
    loadStore (some "\x7b") = none ∧
      loadStore (some "\x7b") ≠ some (Json.arr []) := by
  constructor
  · rfl
  · intro h
    exact Option.noConfusion h

/-- C6 (amended): a missing persisted value — and the falsy empty string
— yields the empty store, but JSON.parse is applied with no guard, so
every other non-deserializable string raises out of the initializer
instead of being treated as an empty store. -/
theorem load_missing_empty_corrupt_throws :
    loadStore none = some (Json.arr []) ∧
    loadStore (some "") = some (Json.arr []) ∧
    ∀ s2 : String, s2 ≠ "" → jsonParse s2 = none →
      loadStore (some s2) = none := by
  refine ⟨rfl, rfl, ?_⟩
  intro s2 hne hparse
  simp [loadStore, hne, hparse]

theorem load_missing_empty_corrupt_throws_witness :
    loadStore (some "not json") = none :=
  load_missing_empty_corrupt_throws.2.2 "not json" (by decide) rfl

/-- C7 counterexample: the code replaces each non-alphanumeric character
of the first 30 prompt characters with an underscore; the claimed
stripping (removal) produces a different filename already on the prompt
containing a single space. -/
theorem filename_not_stripped :
    downloadFilename "a b" = "a_b.jpg" ∧
    strippedFilename "a b" = "ab.jpg" ∧
    downloadFilename "a b" ≠ strippedFilename "a b" := by
  exact ⟨by decide, by decide, by decide⟩

/-- C7 (amended): the exported filename is the first 30 characters of the
prompt with every character that is not an ASCII letter or digit replaced
by an underscore, lower-cased, with the fixed extension ".jpg"
appended. -/
theorem filename_amended (prompt : String) :
    downloadFilename prompt = amendedFilename prompt := by
  unfold downloadFilename amendedFilename
  rw [List.map_map]
  have h : (prompt.toList.take 30).map
        (Char.toLower ∘ fun c => if isAlnumAscii c then c else '_') =
      (prompt.toList.take 30).map
        (fun c => if isAlnumAscii c then Char.toLower c else '_') := by
    apply List.map_congr_left
    intro c _
    show Char.toLower (if isAlnumAscii c then c else '_') =
      if isAlnumAscii c then Char.toLower c else '_'
    by_cases hc : isAlnumAscii c
    · simp [hc]
    · simp only [hc, Bool.false_eq_true, if_false]
      rfl
  rw [h]

/-- C8: a prompt that trims to the empty string is rejected locally —
the gateway is not contacted, no alert is raised, and the state is
untouched — and every failed submission (transport failure, non-ok
response, or a response with a falsy job-id) raises the user-visible
alert and performs no store or working-set mutation. -/
theorem submission_guard_and_failure (prompt : String) (now : Nat)
    (s : HomeState) :
    (jsTrim prompt = "" → ∀ outcome : SubmitOutcome,
      generateImage prompt outcome now s =
        { state := s, alerted := false, contactedGateway := false,
          promptAfter := prompt }) ∧
    (jsTrim prompt ≠ "" → ∀ outcome : SubmitOutcome,
      isSubmitFailure outcome = true →
      (generateImage prompt outcome now s).state = s ∧
      (generateImage prompt outcome now s).alerted = true) := by
  constructor
  · intro he outcome
    simp [generateImage, he]
  · intro hne outcome hfail
    cases outcome with
    | transportFail => simp [generateImage, hne]
    | httpNotOk => simp [generateImage, hne]
    | response idField =>
      rcases idField with _ | jobId
      · simp [generateImage, hne]
      · have hempty : jobId = "" := by simpa [isSubmitFailure] using hfail
        subst hempty
        simp [generateImage, hne]

theorem submission_guard_and_failure_witness :
    generateImage " " SubmitOutcome.transportFail 0 initState =
      { state := initState, alerted := false, contactedGateway := false,
        promptAfter := " " } ∧
    (generateImage "p" SubmitOutcome.httpNotOk 0 initState).state =
        initState ∧
      (generateImage "p" SubmitOutcome.httpNotOk 0 initState).alerted =
        true :=
  ⟨(submission_guard_and_failure " " 0 initState).1 (by decide)
      SubmitOutcome.transportFail,
   (submission_guard_and_failure "p" 0 initState).2 (by decide)
      SubmitOutcome.httpNotOk rfl⟩

/-- C9 counterexample: the submission path performs no duplicate check,
so two submissions for which the gateway returns the same id produce a
reachable store holding two records with that id; no DuplicateIdError is
ever raised. -/
theorem duplicate_ids_reachable :
    Reachable dupState ∧ ¬ (idsOf dupState.images).Nodup ∧
      idsOf dupState.images = ["a", "a"] := by
  refine ⟨?_, by decide, by decide⟩
  exact Relation.ReflTransGen.tail
    (Relation.ReflTransGen.single (Step.submit "a" "p" 0 initState))
    (Step.submit "a" "q" 1 (submitSuccess "a" "p" 0 initState))

theorem store_ids_nodup_witness :
    (idsOf (submitSuccess "a" "p" 0 initState).images).Nodup :=
  store_ids_nodup
    (ReachF.submit "a" "p" 0 ReachF.init (by decide) (by decide))

/-- C10: persisting the Job Store and restoring it is lossless — decoding
the encoded record array yields the same ordered list of records, every
field (id, prompt, status, url, error, startTime, completionTime)
preserved and the newest-first order intact. -/
theorem store_roundtrip (images : List GeneratedImage) :
    decodeStore (encodeStore images) = some images := by
  simp only [decodeStore, encodeStore]
  induction images with
  | nil => rfl
  | cons img rest ih =>
    simp only [List.map_cons, decodeImages, decodeImage_encodeImage, ih]

end SD3UI
